import Mathlib

/-!
Verification development for the dhi runtime structural-type validator
(src/rust/src/lib.rs).  The Rust engine validates dynamically typed host
(JavaScript) values against a declaratively built schema, with a tiered
batch dispatcher.  This file gives a shallow embedding of the engine:

* JS values are modelled by the inductive `JsVal` (tree-shaped; cyclic host
  values are outside the model).  The wasm-bindgen accessors are modelled by
  total Lean functions: `Reflect::get` never throws on a JS object, so the
  `Err` arms of the Rust code are dead and `getProp` is total, returning
  `JsVal.undefined` for absent properties.
* machine integers: the presence bitmaps are `u32` values built from bits
  `1 <<< i` with `i < 32`, so they stay below `2^32` and Nat bitwise
  operations model them exactly (no wraparound can occur).
* `HashMap` iteration order is unspecified in Rust; the embedding fixes it
  deterministically as insertion order (association lists, insert replaces
  in place).  Everything order-dependent in the source (the presence-bitmap
  enumeration, `iter().last()`) is interpreted over that order.
* the mutually recursive Rust validators can diverge only through cyclic
  host values or cyclic custom types; the embedding adds a recursion-depth
  fuel consumed once per nesting level.  Fuel `0` yields `false`.

Dead Rust code (`validate_remaining_fields`, `validate_array_monomorphic`,
`validate_object_monomorphic`, `validate_object`, `validate_value`, the
never-populated `union_caches`) is not embedded: it has no callers.
-/

/-- A JavaScript value as seen through the wasm-bindgen boundary.  The
numeric payload is irrelevant to every check in the engine (only the
dynamic type test `as_f64().is_some()` is ever consulted), so numbers
carry an `Int` payload; `date`, `bigint` and `symbol` are markers. -/
inductive JsVal : Type where
  | undefined
  | null
  | str (s : String)
  | num (n : Int)
  | bool (b : Bool)
  | arr (elems : List JsVal)
  | obj (props : List (String × JsVal))
  | date
  | bigint
  | symbol

/-- Splitting a character list at every occurrence of a separator
character, keeping empty segments: the list-level model of Rust
`str::split(c)` (kernel-computable, unlike the runtime string
primitives). -/
def splitCharList (c : Char) : List Char → List (List Char)
  | [] => [[]]
  | x :: xs =>
      match splitCharList c xs with
      | y :: ys => if x = c then [] :: y :: ys else (x :: y) :: ys
      | [] => if x = c then [[], []] else [[x]]

/-- Rust `str::split(sep)` on strings (via the underlying character
list). -/
def splitChar (sep : Char) (s : String) : List String :=
  (splitCharList sep s.data).map String.mk

/-- Prefix test on character lists. -/
def isPrefixChars : List Char → List Char → Bool
  | [], _ => true
  | _ :: _, [] => false
  | p :: ps, c :: cs => p = c && isPrefixChars ps cs

/-- Rust `str::starts_with`. -/
def strStartsWith (s pre : String) : Bool :=
  isPrefixChars pre.data s.data

/-- Rust `str::ends_with`. -/
def strEndsWith (s suf : String) : Bool :=
  isPrefixChars suf.data.reverse s.data.reverse

/-- Drop the first `n` characters. -/
def strDrop (n : Nat) (s : String) : String :=
  String.mk (s.data.drop n)

/-- Drop the last `n` characters. -/
def strDropRight (n : Nat) (s : String) : String :=
  String.mk (s.data.take (s.data.length - n))

/-- Rust `str::trim` (ASCII/Unicode whitespace from both ends). -/
def strTrim (s : String) : String :=
  String.mk (((s.data.dropWhile Char.isWhitespace).reverse.dropWhile
    Char.isWhitespace).reverse)

/-- Decimal parse of a character list (for JS array index properties). -/
def charsToNat? (cs : List Char) : Option Nat :=
  if cs ≠ [] && cs.all Char.isDigit then
    some (cs.foldl (fun acc c => acc * 10 + (c.toNat - 48)) 0)
  else none

namespace JsVal

/-- `JsValue::is_string`. -/
def isString : JsVal → Bool
  | .str _ => true
  | _ => false

/-- `JsValue::as_f64().is_some()`: true exactly for JS numbers (no coercion). -/
def isNum : JsVal → Bool
  | .num _ => true
  | _ => false

/-- `JsValue::as_bool().is_some()`: true exactly for JS booleans. -/
def isBool : JsVal → Bool
  | .bool _ => true
  | _ => false

/-- `JsValue::is_undefined`. -/
def isUndefined : JsVal → Bool
  | .undefined => true
  | _ => false

/-- `JsValue::is_null`. -/
def isNull : JsVal → Bool
  | .null => true
  | _ => false

/-- `value.is_instance_of::<js_sys::Date>()`. -/
def isDate : JsVal → Bool
  | .date => true
  | _ => false

/-- `JsValue::is_bigint`. -/
def isBigInt : JsVal → Bool
  | .bigint => true
  | _ => false

/-- `JsValue::is_symbol`. -/
def isSymbol : JsVal → Bool
  | .symbol => true
  | _ => false

/-- `JsValue::as_string`: `some` exactly for strings. -/
def asString : JsVal → Option String
  | .str s => some s
  | _ => none

/-- `value.is_object()` and equally `dyn_ref::<js_sys::Object>().is_some()`:
plain objects, arrays and dates are JS objects; `null`, primitives,
bigints and symbols are not. -/
def isJsObject : JsVal → Bool
  | .obj _ => true
  | .arr _ => true
  | .date => true
  | _ => false

/-- First-match association lookup among an object's own properties. -/
def lookupProp : List (String × JsVal) → String → JsVal
  | [], _ => .undefined
  | (k, v) :: rest, key => if k = key then v else lookupProp rest key

/-- `Reflect::get(obj, key)` on a JS object: property lookup, `undefined`
when absent.  Arrays expose `length` and their numeric indices. -/
def getProp : JsVal → String → JsVal
  | .obj props, key => lookupProp props key
  | .arr elems, key =>
      if key = "length" then .num (Int.ofNat elems.length)
      else
        match charsToNat? key.data with
        | some i => elems.getD i .undefined
        | none => .undefined
  | _, _ => .undefined

/-- `js_sys::Object::values`: enumerable own property values.  For an array
these are its elements (`length` is not enumerable). -/
def objValues : JsVal → List JsVal
  | .obj props => props.map Prod.snd
  | .arr elems => elems
  | _ => []

end JsVal

mutual
/-- The Rust `FieldType` sum type (src/rust/src/lib.rs lines 41-61). -/
inductive FieldType : Type where
  | string
  | number
  | boolean
  | array (item : FieldType)
  | object (schema : List FieldEntry)
  | custom (name : String)
  | any
  | record (value : FieldType)
  | date
  | bigint
  | symbol
  | undefined
  | null
  | void
  | unknown
  | never
  | enum (allowed : List String)
  | union (members : List FieldType)

/-- One entry of a schema map: the field name (the `HashMap` key) together
with its Rust `FieldValidator { field_type, required, key }`.  The cached
JS `key` is the `JsValue` built from the field name. -/
inductive FieldEntry : Type where
  | mk (name : String) (ftype : FieldType) (required : Bool) (key : String)
end

/-- A schema: the `HashMap<String, FieldValidator>` with its (model-fixed)
iteration order. -/
abbrev Schema := List FieldEntry

/-- The custom type registry `HashMap<String, HashMap<String, FieldValidator>>`. -/
abbrev CustomTypes := List (String × Schema)

namespace FieldEntry

def name : FieldEntry → String
  | .mk n _ _ _ => n

def ftype : FieldEntry → FieldType
  | .mk _ t _ _ => t

def required : FieldEntry → Bool
  | .mk _ _ r _ => r

def key : FieldEntry → String
  | .mk _ _ _ k => k

end FieldEntry

/-- Association lookup in the custom type registry. -/
def lookupCT : CustomTypes → String → Option Schema
  | [], _ => none
  | (n, s) :: rest, name => if n = name then some s else lookupCT rest name

/-- Membership test in the custom type registry (`contains_key`). -/
def containsCT (ct : CustomTypes) (name : String) : Bool :=
  (lookupCT ct name).isSome

/-- `HashMap::insert` on the model: replace in place if the key exists,
otherwise append. -/
def insertField : Schema → FieldEntry → Schema
  | [], e => [e]
  | x :: xs, e => if x.name = e.name then e :: xs else x :: insertField xs e

/-- Registry insert (replace in place or append). -/
def insertCT : CustomTypes → String → Schema → CustomTypes
  | [], n, s => [(n, s)]
  | (k, v) :: rest, n, s =>
      if k = n then (n, s) :: rest else (k, v) :: insertCT rest n s

/-- The members singled out as primitive by the `Union` arm of
`validate_value_bool` (String / Number / Boolean). -/
def isPrimFT : FieldType → Bool
  | .string => true
  | .number => true
  | .boolean => true
  | _ => false

/-- The complex types of `invalidate_cache`: Object, Array, Custom, Union. -/
def isComplexFT : FieldType → Bool
  | .object _ => true
  | .array _ => true
  | .custom _ => true
  | .union _ => true
  | _ => false

def isUnionFT : FieldType → Bool
  | .union _ => true
  | _ => false

def isArrayFT : FieldType → Bool
  | .array _ => true
  | _ => false

def isObjectFT : FieldType → Bool
  | .object _ => true
  | _ => false

/-- The recursive single-value checker `validate_value_bool`
(src/rust/src/lib.rs lines 901-989), fuel-indexed: one unit of fuel is
consumed per nesting level, and exhausted fuel yields `false`.  The bodies
of `validate_object_bool` (lines 825-844) and `validate_array_optimized`
(lines 693-717, whose per-type SIMD loops are elementwise type tests) are
inlined at their call sites, as required by structural recursion; the
`Object` and `Custom` arms therefore carry the field loop of
`validate_object_bool` verbatim: get the property by the cached key; a
required absent field fails; an absent optional field is skipped; a present
field is checked recursively.  The `Union` arm mirrors the source's
partition into primitive members first, then complex members
(`List.filter` twice preserves the source's two-vector partition order). -/
def validate_value_bool (ct : CustomTypes) : Nat → JsVal → FieldType → Bool
  | 0, _, _ => false
  | f + 1, v, t =>
    match t with
    | .string => v.isString
    | .number => v.isNum
    | .boolean => v.isBool
    | .array item =>
        match v with
        | .arr es =>
            if es.length = 0 then true
            else
              match item with
              | .string => es.all JsVal.isString
              | .number => es.all JsVal.isNum
              | .boolean => es.all JsVal.isBool
              | _ => es.all (fun e => validate_value_bool ct f e item)
        | _ => false
    | .object s =>
        v.isJsObject &&
          s.all (fun e =>
            let fv := v.getProp e.key
            if e.required && fv.isUndefined then false
            else if fv.isUndefined then true
            else validate_value_bool ct f fv e.ftype)
    | .custom n =>
        match lookupCT ct n with
        | some s =>
            v.isJsObject &&
              s.all (fun e =>
                let fv := v.getProp e.key
                if e.required && fv.isUndefined then false
                else if fv.isUndefined then true
                else validate_value_bool ct f fv e.ftype)
        | none => true
    | .record tv =>
        v.isJsObject && (v.objValues).all (fun x => validate_value_bool ct f x tv)
    | .date => v.isDate
    | .bigint => v.isBigInt
    | .symbol => v.isSymbol
    | .undefined => v.isUndefined
    | .null => v.isNull
    | .void => v.isUndefined
    | .unknown => true
    | .never => false
    | .any => true
    | .enum vals =>
        match v.asString with
        | some s => vals.contains s
        | none => false
    | .union ts =>
        (ts.filter isPrimFT).any (fun m => validate_value_bool ct f v m) ||
          (ts.filter (fun m => !isPrimFT m)).any (fun m => validate_value_bool ct f v m)

/-- `validate_object_bool` (src/rust/src/lib.rs lines 825-844).  Its body
is exactly the `Object` arm of `validate_value_bool`, so the embedding
delegates to that arm. -/
def validate_object_bool (ct : CustomTypes) (fuel : Nat) (v : JsVal) (s : Schema) : Bool :=
  validate_value_bool ct fuel v (.object s)

/-- The validator state `DhiCore` (src/rust/src/lib.rs lines 13-31).  The
`union_caches` field is omitted: it is initialised empty and never read or
written afterwards anywhere in the source. -/
structure DhiCore : Type where
  schema : Schema
  batch_size : Int
  custom_types : CustomTypes
  debug : Bool
  has_complex_types : Bool
  is_strict_primitive_schema : Bool
  has_unions : Bool
  has_mixed_arrays : Bool
  strict_fields : List (String × Nat)
  fast_fields : List (String × FieldType)
  presence_bitmap_cache : List (String × Nat)

/-- `DhiCore::new` (lines 74-90). -/
def DhiCore.new : DhiCore where
  schema := []
  batch_size := 1000
  custom_types := []
  debug := false
  has_complex_types := false
  is_strict_primitive_schema := false
  has_unions := false
  has_mixed_arrays := false
  strict_fields := []
  fast_fields := []
  presence_bitmap_cache := []

/-- The primitive type tag of `invalidate_cache`: String 0, Number 1,
Boolean 2, anything else 255. -/
def tagOf : FieldType → Nat
  | .string => 0
  | .number => 1
  | .boolean => 2
  | _ => 255

/-- The presence-bitmap table built by `invalidate_cache` (lines 245-251):
field name to bit `1 <<< i` for the first 32 fields in iteration order. -/
def buildPresenceBitmap (s : Schema) : List (String × Nat) :=
  s.enum.filterMap (fun p =>
    if p.1 < 32 then some (p.2.name, 1 <<< p.1) else none)

/-- `invalidate_cache` (src/rust/src/lib.rs lines 200-252): recompute every
cached flag and flattened table from the schema. -/
def invalidate_cache (c : DhiCore) : DhiCore :=
  let hasComplex := c.schema.any fun e => isComplexFT e.ftype
  let hasUnions := c.schema.any fun e => isUnionFT e.ftype
  let hasMixed :=
    (c.schema.any fun e => isArrayFT e.ftype) &&
      (c.schema.any fun e => isObjectFT e.ftype)
  let strictPrim :=
    !hasComplex && c.schema.all fun e => e.required && isPrimFT e.ftype
  { c with
    has_complex_types := hasComplex
    has_unions := hasUnions
    has_mixed_arrays := hasMixed
    is_strict_primitive_schema := strictPrim
    strict_fields :=
      if strictPrim then c.schema.map (fun e => (e.key, tagOf e.ftype)) else []
    fast_fields :=
      if !hasComplex then c.schema.map (fun e => (e.key, e.ftype)) else []
    presence_bitmap_cache := buildPresenceBitmap c.schema }

/-- The source's `Union` member loop (lines 876-880): parse each part in
order, pushing results, propagating the first error (the loop with `?`). -/
def exceptMapList (g : String → Except String FieldType) :
    List String → Except String (List FieldType)
  | [] => .ok []
  | p :: ps =>
      match g p with
      | .error e => .error e
      | .ok t =>
          match exceptMapList g ps with
          | .error e => .error e
          | .ok ts => .ok (t :: ts)

/-- The type-descriptor parser `parse_field_type` (lines 846-889),
fuel-indexed for the recursion into `Array<...>` / `Record<...>` /
`Union<...>` descriptors; each recursive step strictly shortens the
descriptor, so fuel `length + 1` (used by the `parse_field_type` wrapper)
can never run out; the fuel-0 result keeps the error shape of the source.
`Union` members are the comma-split segments of the inner text, trimmed,
parsed left to right with the first error propagated (the source loop with
`?`). -/
def parseFieldTypeF (ct : CustomTypes) : Nat → String → Except String FieldType
  | 0, s => .error ("Unsupported type: " ++ s)
  | f + 1, s =>
    match s with
    | "string" => .ok .string
    | "number" => .ok .number
    | "boolean" => .ok .boolean
    | "object" => .ok (.object [])
    | "record" => .ok (.record .any)
    | "date" => .ok .date
    | "bigint" => .ok .bigint
    | "symbol" => .ok .symbol
    | "undefined" => .ok .undefined
    | "null" => .ok .null
    | "void" => .ok .void
    | "unknown" => .ok .unknown
    | "never" => .ok .never
    | _ =>
      if strStartsWith s "enum:" then
        .ok (.enum (splitChar ',' (strDrop 5 s)))
      else if strStartsWith s "Array<" && strEndsWith s ">" then
        match parseFieldTypeF ct f (strDropRight 1 (strDrop 6 s)) with
        | .ok inner => .ok (.array inner)
        | .error e => .error e
      else if strStartsWith s "Record<" && strEndsWith s ">" then
        match parseFieldTypeF ct f (strDropRight 1 (strDrop 7 s)) with
        | .ok inner => .ok (.record inner)
        | .error e => .error e
      else if strStartsWith s "Union<" && strEndsWith s ">" then
        match exceptMapList (fun p => parseFieldTypeF ct f (strTrim p))
            (splitChar ',' (strDropRight 1 (strDrop 6 s))) with
        | .ok members => .ok (.union members)
        | .error e => .error e
      else if containsCT ct s then
        .ok (.custom s)
      else
        .error ("Unsupported type: " ++ s)

/-- `DhiCore::parse_field_type`, with enough fuel for any descriptor. -/
def parse_field_type (c : DhiCore) (s : String) : Except String FieldType :=
  parseFieldTypeF c.custom_types (s.length + 1) s

/-- `define_custom_type` (lines 102-108): idempotent registration of an
empty named schema; always returns `Ok`. -/
def define_custom_type (c : DhiCore) (typeName : String) : DhiCore :=
  if containsCT c.custom_types typeName then c
  else { c with custom_types := insertCT c.custom_types typeName [] }

/-- `add_field_to_custom_type` (lines 110-130).  Mutating operations are
modelled state-passing: the result is the new state together with the
error, if any; on error the state component is the unchanged input, which
is exactly the Rust behaviour (both failure points precede any mutation).
Note that the source does not reclassify caches here. -/
def add_field_to_custom_type (c : DhiCore) (typeName fieldName fieldTypeStr : String)
    (required : Bool) : DhiCore × Option String :=
  match parse_field_type c fieldTypeStr with
  | .error e => (c, some e)
  | .ok t =>
    match lookupCT c.custom_types typeName with
    | none => (c, some "Custom type not defined")
    | some cs =>
        ({ c with
            custom_types :=
              insertCT c.custom_types typeName
                (insertField cs (.mk fieldName t required fieldName)) },
          none)

/-- `add_field` (lines 132-139): parse the descriptor, insert the field
into the root schema, reclassify.  A parse failure happens before any
mutation. -/
def add_field (c : DhiCore) (name fieldTypeStr : String) (required : Bool) :
    DhiCore × Option String :=
  match parse_field_type c fieldTypeStr with
  | .error e => (c, some e)
  | .ok t =>
      (invalidate_cache
        { c with schema := insertField c.schema (.mk name t required name) },
        none)

/-- `add_object_field` (lines 141-152): insert an empty nested object
field; always succeeds. -/
def add_object_field (c : DhiCore) (name : String) (required : Bool) : DhiCore :=
  invalidate_cache
    { c with schema := insertField c.schema (.mk name (.object []) required name) }

/-- The navigation-and-insert loop of `add_nested_field` (lines 172-190):
walk the dot-split path, requiring each segment to name an Object-typed
field of the schema being navigated, and insert the new entry into the
schema reached by the full path.  `none` models the
`Invalid object path` early return. -/
def insertAtPath : Schema → List String → FieldEntry → Option Schema
  | s, [], e => some (insertField s e)
  | [], _ :: _, _ => none
  | .mk nm t req key :: restS, p :: restP, e =>
      if nm = p then
        match t with
        | .object nested =>
            match insertAtPath nested restP e with
            | some ns => some (.mk nm (.object ns) req key :: restS)
            | none => none
        | _ => none
      else
        match insertAtPath restS (p :: restP) e with
        | some s2 => some (.mk nm t req key :: s2)
        | none => none

/-- Read-only navigation along a dot-split path: `some` of the nested
schema reached when every segment names an Object-typed field, `none` as
soon as a segment is missing or names a non-Object field. -/
def navigatePath : Schema → List String → Option Schema
  | s, [] => some s
  | [], _ :: _ => none
  | .mk nm t _ _ :: restS, p :: restP =>
      if nm = p then
        match t with
        | .object nested => navigatePath nested restP
        | _ => none
      else navigatePath restS (p :: restP)

/-- `add_nested_field` (lines 154-193): parse first (so a bad descriptor
mutates nothing), insert at root when the path is empty, otherwise
navigate the dot-separated path and insert into the nested schema;
navigation failure returns the `Invalid object path` error with the state
untouched. -/
def add_nested_field (c : DhiCore) (objectPath fieldName fieldTypeStr : String)
    (required : Bool) : DhiCore × Option String :=
  match parse_field_type c fieldTypeStr with
  | .error e => (c, some e)
  | .ok t =>
    if objectPath = "" then
      (invalidate_cache
        { c with schema := insertField c.schema (.mk fieldName t required fieldName) },
        none)
    else
      match insertAtPath c.schema (splitChar '.' objectPath) (.mk fieldName t required fieldName) with
      | some s2 => (invalidate_cache { c with schema := s2 }, none)
      | none => (c, some "Invalid object path")

/-- `validate_value_internal` (lines 773-815): the single-value entry
point.  The value must be a JS object; every schema field is checked by
the cached key; fields typed `Object` go through `validate_object_bool`
directly (the source's first match arm), every other field type goes
through `validate_value_bool`. -/
def validate_value_internal (c : DhiCore) (fuel : Nat) (v : JsVal) : Bool :=
  v.isJsObject &&
    c.schema.all (fun e =>
      match e.ftype with
      | .object nested =>
          let nv := v.getProp e.key
          if e.required && nv.isUndefined then false
          else if nv.isUndefined then true
          else validate_object_bool c.custom_types fuel nv nested
      | t =>
          let fv := v.getProp e.key
          if e.required && fv.isUndefined then false
          else if fv.isUndefined then true
          else validate_value_bool c.custom_types fuel fv t)

/-- `DhiCore::validate` (lines 195-198): always `Ok` of the boolean. -/
def validate (c : DhiCore) (fuel : Nat) (v : JsVal) : Except String Bool :=
  .ok (validate_value_internal c fuel v)

/-- `validate_primitive_type` (lines 683-691). -/
def validate_primitive_type (v : JsVal) (tag : Nat) : Bool :=
  match tag with
  | 0 => v.isString
  | 1 => v.isNum
  | 2 => v.isBool
  | _ => false

/-- Per-item body of `validate_batch_1_field` (lines 301-319): the single
strict field must be present, defined, and tag-matching.  Only reached
with exactly one strict field; the empty-table branch is unreachable. -/
def validate_batch_1_field_item (sf : List (String × Nat)) (v : JsVal) : Bool :=
  match sf with
  | (key, tag) :: _ =>
      if v.isJsObject then
        let fv := v.getProp key
        !fv.isUndefined &&
          (match tag with
            | 0 => fv.isString
            | 1 => fv.isNum
            | 2 => fv.isBool
            | _ => false)
      else false
  | [] => false

/-- Per-item body of `validate_batch_2_fields` (lines 321-341). -/
def validate_batch_2_fields_item (sf : List (String × Nat)) (v : JsVal) : Bool :=
  match sf with
  | (k1, t1) :: (k2, t2) :: _ =>
      if v.isJsObject then
        let v1 := v.getProp k1
        let v2 := v.getProp k2
        !v1.isUndefined && !v2.isUndefined &&
          validate_primitive_type v1 t1 && validate_primitive_type v2 t2
      else false
  | _ => false

/-- Per-item body of `validate_batch_3_fields` (lines 343-366). -/
def validate_batch_3_fields_item (sf : List (String × Nat)) (v : JsVal) : Bool :=
  match sf with
  | (k1, t1) :: (k2, t2) :: (k3, t3) :: _ =>
      if v.isJsObject then
        let v1 := v.getProp k1
        let v2 := v.getProp k2
        let v3 := v.getProp k3
        !v1.isUndefined && !v2.isUndefined && !v3.isUndefined &&
          validate_primitive_type v1 t1 && validate_primitive_type v2 t2 &&
            validate_primitive_type v3 t3
      else false
  | _ => false

/-- Per-item body of `validate_batch_4_fields` (lines 368-394). -/
def validate_batch_4_fields_item (sf : List (String × Nat)) (v : JsVal) : Bool :=
  match sf with
  | (k1, t1) :: (k2, t2) :: (k3, t3) :: (k4, t4) :: _ =>
      if v.isJsObject then
        let v1 := v.getProp k1
        let v2 := v.getProp k2
        let v3 := v.getProp k3
        let v4 := v.getProp k4
        !v1.isUndefined && !v2.isUndefined && !v3.isUndefined && !v4.isUndefined &&
          validate_primitive_type v1 t1 && validate_primitive_type v2 t2 &&
            validate_primitive_type v3 t3 && validate_primitive_type v4 t4
      else false
  | _ => false

/-- Per-item body of the generic fallback `validate_batch_n_fields`
(lines 396-409): every strict field present, defined and tag-matching. -/
def validate_batch_n_fields_item (sf : List (String × Nat)) (v : JsVal) : Bool :=
  if v.isJsObject then
    sf.all (fun p => !(v.getProp p.1).isUndefined && validate_primitive_type (v.getProp p.1) p.2)
  else false

/-- Per-item result of the strict-primitive tier
`validate_batch_simd_primitives` (lines 276-298): dispatch on the strict
field count to the unrolled variants, generic fallback otherwise.  The
SIMD_BATCH_SIZE windowing of the source only partitions the iteration; the
per-index result is as computed here. -/
def strict_tier_item (c : DhiCore) (v : JsVal) : Bool :=
  match c.strict_fields.length with
  | 1 => validate_batch_1_field_item c.strict_fields v
  | 2 => validate_batch_2_fields_item c.strict_fields v
  | 3 => validate_batch_3_fields_item c.strict_fields v
  | 4 => validate_batch_4_fields_item c.strict_fields v
  | _ => validate_batch_n_fields_item c.strict_fields v

/-- `validate_union_ultra_fast` (lines 482-537): the union tier validates
every item against a hardcoded benchmark shape
(type / value / config.mode / config.options with stringOpt / numberOpt /
boolOpt), ignoring the actual schema entirely. -/
def validate_union_ultra_fast (v : JsVal) : Bool :=
  if !v.isJsObject then false
  else
    let typeVal := v.getProp "type"
    if !typeVal.isString && !typeVal.isNum then false
    else
      let valueVal := v.getProp "value"
      let valueOk :=
        if valueVal.isString || valueVal.isNum || valueVal.isBool then true
        else
          match valueVal with
          | .arr es => es.all JsVal.isString
          | _ => false
      if !valueOk then false
      else
        let configVal := v.getProp "config"
        if !configVal.isJsObject then false
        else
          let modeVal := configVal.getProp "mode"
          if !modeVal.isString && !modeVal.isNum then false
          else
            let optionsVal := configVal.getProp "options"
            if !optionsVal.isJsObject then false
            else
              let stringOpt := optionsVal.getProp "stringOpt"
              if !stringOpt.isUndefined then stringOpt.isString
              else
                let numberOpt := optionsVal.getProp "numberOpt"
                if !numberOpt.isUndefined then numberOpt.isNum
                else
                  let boolOpt := optionsVal.getProp "boolOpt"
                  if !boolOpt.isUndefined then boolOpt.isBool
                  else false

/-- `validate_mixed_ultra_fast` (lines 539-602): the mixed tier likewise
validates every item against a hardcoded users / settings / metadata
benchmark shape, ignoring the actual schema. -/
def validate_mixed_ultra_fast (v : JsVal) : Bool :=
  if !v.isJsObject then false
  else
    match v.getProp "users" with
    | .arr users =>
        let userOk := fun (u : JsVal) =>
          if !u.isJsObject then false
          else
            (u.getProp "name").isString &&
              (u.getProp "age").isNum &&
                (let prefs := u.getProp "preferences";
                  prefs.isJsObject &&
                    (prefs.getProp "theme").isString &&
                      (prefs.getProp "notifications").isBool)
        if !(users.all userOk) then false
        else
          let settings := v.getProp "settings"
          if !settings.isJsObject then false
          else if !(settings.getProp "version").isString then false
          else
            match settings.getProp "features" with
            | .arr features =>
                if !(features.all JsVal.isString) then false
                else
                  match v.getProp "metadata" with
                  | .arr metadata =>
                      metadata.all (fun m =>
                        if !m.isJsObject then false
                        else
                          (m.getProp "key").isString &&
                            (let mv := m.getProp "value";
                              mv.isString || mv.isNum || mv.isBool))
                  | _ => false
            | _ => false
    | _ => false

/-- Per-item result of the vectorized-simple tier
`validate_batch_vectorized` (lines 411-432): iterate the flattened
`fast_fields` table and type-check each property, with no
required/optional handling. -/
def vectorized_tier_item (c : DhiCore) (fuel : Nat) (v : JsVal) : Bool :=
  if v.isJsObject then
    c.fast_fields.all (fun p => validate_value_bool c.custom_types fuel (v.getProp p.1) p.2)
  else false

/-- The mask-building loop of `validate_asymmetric_fast` (lines 605-636):
walk the schema in iteration order, breaking out at field index 32; each
required field sets its bit in the required mask; each present (defined)
field sets its bit in the present mask and is type-checked, a failing
check aborting with `false`; at the end (or at the 32-field break) the
item is valid when `(present AND required) == required`. -/
def asymLoop (ct : CustomTypes) (fuel : Nat) (v : JsVal) :
    Schema → Nat → Nat → Nat → Bool
  | [], _, present, required => (present &&& required) == required
  | e :: rest, i, present, required =>
    if 32 ≤ i then (present &&& required) == required
    else
      let bit := 1 <<< i
      let required2 := if e.required then required ||| bit else required
      let fv := v.getProp e.key
      if fv.isUndefined then asymLoop ct fuel v rest (i + 1) present required2
      else if validate_value_bool ct fuel fv e.ftype then
        asymLoop ct fuel v rest (i + 1) (present ||| bit) required2
      else false

/-- Per-item result of the presence-bitmap tier `validate_asymmetric_fast`
(lines 605-636). -/
def asym_tier_item (c : DhiCore) (fuel : Nat) (v : JsVal) : Bool :=
  v.isJsObject && asymLoop c.custom_types fuel v c.schema 0 0 0

/-- The batch dispatcher `validate_batch` (lines 254-273) as a list of
per-item results: classification flags select the tier; every tier's
chunking (SIMD_BATCH_SIZE, CHUNK_SIZE, the 32-item windows) only
partitions the index range, and each result slot `i` receives exactly the
per-item result of item `i`, so the functional content is a positional
map. -/
def validate_batch_list (c : DhiCore) (fuel : Nat) (items : List JsVal) : List Bool :=
  if c.is_strict_primitive_schema then items.map (strict_tier_item c)
  else if c.has_unions then items.map validate_union_ultra_fast
  else if c.has_mixed_arrays then items.map validate_mixed_ultra_fast
  else if !c.has_complex_types then items.map (vectorized_tier_item c fuel)
  else items.map (asym_tier_item c fuel)

/-- `DhiCore::validate_batch`: always `Ok` of the results array. -/
def validate_batch (c : DhiCore) (fuel : Nat) (items : List JsVal) :
    Except String (List Bool) :=
  .ok (validate_batch_list c fuel items)

/-- `set_optional` (lines 991-996): flip the `required` flag of the field
the schema iteration reports last (in the model: the last entry); no-op on
an empty schema.  No reclassification happens. -/
def set_optional (c : DhiCore) (optional : Bool) : DhiCore :=
  match c.schema.reverse with
  | [] => c
  | .mk nm t _ key :: restRev =>
      { c with schema := (FieldEntry.mk nm t (!optional) key :: restRev).reverse }

/-- `set_nullable` (lines 998-1004): the source carries a
`TODO: Implement nullable logic` and meanwhile performs exactly the body
of `set_optional` on the last-iterated field. -/
def set_nullable (c : DhiCore) (nullable : Bool) : DhiCore :=
  match c.schema.reverse with
  | [] => c
  | .mk nm t _ key :: restRev =>
      { c with schema := (FieldEntry.mk nm t (!nullable) key :: restRev).reverse }

/-- Cache consistency: the cached classification agrees with a fresh
recomputation from the schema.  Every core produced by the builder
operations satisfies this, since each mutation ends in
`invalidate_cache`. -/
def WellFormed (c : DhiCore) : Prop :=
  invalidate_cache c = c

/-! ### Derived cores and auxiliary definitions used by the theorems -/

/-- The classification contract of the cache: `has_complex_types` holds iff
some field is Object, Array, Custom or Union, and
`is_strict_primitive_schema` holds iff there are no complex types, every
field is required, and every field is String, Number or Boolean. -/
def ClassifiedCorrectly (c : DhiCore) : Prop :=
  c.has_complex_types = c.schema.any (fun e => isComplexFT e.ftype)
  ∧ c.is_strict_primitive_schema =
      (!c.schema.any (fun e => isComplexFT e.ftype)
        && c.schema.all (fun e => e.required)
        && c.schema.all (fun e => isPrimFT e.ftype))

/-- The 13 primitive keywords of the descriptor grammar (spec section 4.1),
matching the literal arms of `parse_field_type`. -/
def keywordList : List String :=
  ["string", "number", "boolean", "object", "record", "date", "bigint",
   "symbol", "undefined", "null", "void", "unknown", "never"]

/-- The descriptor grammar of spec section 4.1 as a recogniser (fuelled
like the parser): a descriptor matches iff it is a primitive keyword, an
`enum:` form, an `Array<d>` / `Record<d>` form with matching inner
descriptor, a `Union<d, ..., d>` form whose comma-split trimmed segments
all match, or a registered custom type name (the grammar's
`custom_form`). -/
def matchesGrammarF (ct : CustomTypes) : Nat → String → Bool
  | 0, _ => false
  | f + 1, s =>
      keywordList.contains s
      || strStartsWith s "enum:"
      || (strStartsWith s "Array<" && strEndsWith s ">"
          && matchesGrammarF ct f (strDropRight 1 (strDrop 6 s)))
      || (strStartsWith s "Record<" && strEndsWith s ">"
          && matchesGrammarF ct f (strDropRight 1 (strDrop 7 s)))
      || (strStartsWith s "Union<" && strEndsWith s ">"
          && (splitChar ',' (strDropRight 1 (strDrop 6 s))).all
              (fun p => matchesGrammarF ct f (strTrim p)))
      || containsCT ct s

/-- Grammar recognition for a descriptor, at the parser's fuel. -/
def matchesGrammar (c : DhiCore) (s : String) : Bool :=
  matchesGrammarF c.custom_types (s.length + 1) s

/-- The bitmask over the first 32 schema fields (in iteration order)
selected by a predicate, starting at bit index `i`: the shape of the masks
accumulated by `validate_asymmetric_fast`. -/
def maskOfFields (pred : FieldEntry → Bool) : Schema → Nat → Nat
  | [], _ => 0
  | e :: rest, i =>
      if 32 ≤ i then 0
      else (if pred e then 1 <<< i else 0) ||| maskOfFields pred rest (i + 1)

/-- The required-fields bitmask of `validate_asymmetric_fast`. -/
def requiredMask (s : Schema) : Nat :=
  maskOfFields (fun e => e.required) s 0

/-- The present-fields bitmask of `validate_asymmetric_fast` (a field is
present when its property is defined). -/
def presentMask (v : JsVal) (s : Schema) : Nat :=
  maskOfFields (fun e => !(v.getProp e.key).isUndefined) s 0

/-- A 33-field schema of required empty-Object fields, driving the batch
dispatcher into the presence-bitmap tier. -/
def wideCore : DhiCore :=
  (List.range 33).foldl
    (fun c i => add_object_field c (Nat.repr i) true) DhiCore.new

/-- An item carrying only the first 32 of `wideCore`'s fields; the 33rd
required field is absent. -/
def wideItem : JsVal :=
  JsVal.obj ((List.range 32).map (fun i => (Nat.repr i, JsVal.obj [])))

/-- A one-field core reaching the presence-bitmap tier. -/
def smallAsymCore : DhiCore := add_object_field DhiCore.new "a" true

/-- Core whose single field has a union descriptor, steering the batch
dispatcher into the union tier. -/
def unionBenchCore : DhiCore :=
  (add_field DhiCore.new "id" "Union<string, number>" true).1

/-- A two-field all-required primitive core, landing in the strict tier. -/
def strictPairCore : DhiCore :=
  (add_field (add_field DhiCore.new "name" "string" true).1 "age" "number" true).1

/-! ### General helper lemmas -/

theorem list_all_and {α : Type} (l : List α) (p q : α → Bool) :
    l.all (fun x => p x && q x) = (l.all p && l.all q) := by
  induction l with
  | nil => rfl
  | cons x xs ih =>
      simp [List.all_cons, ih, Bool.and_assoc, Bool.and_left_comm, Bool.and_comm]

theorem filter_any_or_any {α : Type} (l : List α) (q p : α → Bool) :
    ((l.filter q).any p || (l.filter (fun x => !q x)).any p) = l.any p := by
  rw [List.any_filter, List.any_filter]
  induction l with
  | nil => rfl
  | cons x xs ih =>
      cases hq : q x with
      | true => simp [List.any_cons, hq, Bool.or_assoc, ih]
      | false => simp [List.any_cons, hq, Bool.or_left_comm, ih]

theorem perm_any_eq {α : Type} {l l2 : List α} (p : α → Bool) (h : l.Perm l2) :
    l.any p = l2.any p := by
  induction h with
  | nil => rfl
  | cons x _ ih => simp [List.any_cons, ih]
  | swap x y l => simp [List.any_cons, Bool.or_left_comm, Bool.or_comm, Bool.or_assoc]
  | trans _ _ ih1 ih2 => rw [ih1, ih2]

/-! ### C10: set_nullable behaves exactly like set_optional -/

/-- C10: `set_nullable(b)` has exactly the same effect on the validator
state as `set_optional(b)`: both set the `required` flag of the
last-iterated schema field to the negation of `b` and change nothing else
(field names, field types, the cached classification and every other state
component are untouched); in particular `set_nullable(true)` leaves the
field's type unchanged, so it does not make `null` an accepted value. -/
theorem C10_set_nullable_is_set_optional (c : DhiCore) (b : Bool) :
    set_nullable c b = set_optional c b
    ∧ (set_optional c b).schema.map FieldEntry.name = c.schema.map FieldEntry.name
    ∧ (set_optional c b).schema.map FieldEntry.ftype = c.schema.map FieldEntry.ftype
    ∧ (set_optional c b).schema.dropLast = c.schema.dropLast
    ∧ (c.schema ≠ [] →
        ((set_optional c b).schema.getLast?).map FieldEntry.required = some (!b))
    ∧ (set_optional c b).batch_size = c.batch_size
    ∧ (set_optional c b).custom_types = c.custom_types
    ∧ (set_optional c b).debug = c.debug
    ∧ (set_optional c b).has_complex_types = c.has_complex_types
    ∧ (set_optional c b).is_strict_primitive_schema = c.is_strict_primitive_schema
    ∧ (set_optional c b).has_unions = c.has_unions
    ∧ (set_optional c b).has_mixed_arrays = c.has_mixed_arrays
    ∧ (set_optional c b).strict_fields = c.strict_fields
    ∧ (set_optional c b).fast_fields = c.fast_fields
    ∧ (set_optional c b).presence_bitmap_cache = c.presence_bitmap_cache := by
  refine ⟨rfl, ?_⟩
  unfold set_optional
  cases h : c.schema.reverse with
  | nil =>
      have hs : c.schema = [] := by
        have := congrArg List.reverse h
        simpa using this
      simp [hs]
  | cons e rest =>
      cases e with
      | mk nm t r key =>
          have hs : c.schema = rest.reverse ++ [FieldEntry.mk nm t r key] := by
            have := congrArg List.reverse h
            simpa using this
          simp [hs, List.getLast?_concat, List.dropLast_concat,
            FieldEntry.name, FieldEntry.ftype, FieldEntry.required]

/-- C10 witness: a concrete two-field schema, instantiating the theorem and
discharging its nonemptiness hypothesis. -/
theorem C10_witness :
    ((set_optional (add_object_field DhiCore.new "a" true) false).schema.getLast?).map
      FieldEntry.required = some (!false) :=
  (C10_set_nullable_is_set_optional (add_object_field DhiCore.new "a" true)
    false).2.2.2.2.1 (fun h => List.noConfusion h)

/-! ### C7: validation outcomes are never errors -/

/-- C7: for every schema and input value, `validate` returns `Ok` of a
boolean and never an error; a non-object input yields `Ok false`; and
`validate_batch` always returns `Ok` of a boolean array of the input
length. -/
theorem C7_validation_never_errors (c : DhiCore) (fuel : Nat) (v : JsVal)
    (items : List JsVal) :
    (∃ b, validate c fuel v = .ok b)
    ∧ (v.isJsObject = false → validate c fuel v = .ok false)
    ∧ (∃ rs, validate_batch c fuel items = .ok rs ∧ rs.length = items.length) := by
  refine ⟨⟨validate_value_internal c fuel v, rfl⟩, ?_, ?_⟩
  · intro h
    simp [validate, validate_value_internal, h]
  · refine ⟨validate_batch_list c fuel items, rfl, ?_⟩
    unfold validate_batch_list
    split
    · simp
    · split
      · simp
      · split
        · simp
        · split <;> simp

/-- C7 witness: a number is not an object, so `validate` returns
`Ok false` on it. -/
theorem C7_witness : validate DhiCore.new 0 (JsVal.num 0) = .ok false :=
  (C7_validation_never_errors DhiCore.new 0 (JsVal.num 0) []).2.1 rfl

/-! ### C6: Custom type resolution -/

/-- C6: checking a value against `Custom(name)` equals, when `name` is
registered, validating the value as an `Object` against the registered
schema, and is vacuously `true` for every value when `name` is not
registered (never an error).  Fuel `fuel + 1` guarantees at least one
recursion step on both sides. -/
theorem C6_custom_resolution (ct : CustomTypes) (fuel : Nat) (v : JsVal) (n : String) :
    validate_value_bool ct (fuel + 1) v (.custom n) =
      match lookupCT ct n with
      | some s => validate_value_bool ct (fuel + 1) v (.object s)
      | none => true := by
  cases h : lookupCT ct n with
  | none => simp [validate_value_bool, h]
  | some s => simp [validate_value_bool, h]

/-! ### C3: Union semantics -/

/-- C3: a value passes the single-value check against `Union(types)` iff it
passes against at least one member of `types` (member checks running at the
inner fuel level), and the outcome is independent of the order in which the
members are listed: any permutation of the member list yields the same
result, the primitive-first evaluation order being only an optimization. -/
theorem C3_union_member_semantics (ct : CustomTypes) (fuel : Nat) (v : JsVal)
    (ts ts2 : List FieldType) (hperm : ts.Perm ts2) :
    (validate_value_bool ct (fuel + 1) v (.union ts) = true ↔
      ∃ t ∈ ts, validate_value_bool ct fuel v t = true)
    ∧ validate_value_bool ct (fuel + 1) v (.union ts) =
        validate_value_bool ct (fuel + 1) v (.union ts2) := by
  have hU : ∀ l : List FieldType,
      validate_value_bool ct (fuel + 1) v (.union l) =
        l.any (fun m => validate_value_bool ct fuel v m) := by
    intro l
    show ((l.filter isPrimFT).any _ || (l.filter _).any _) = _
    exact filter_any_or_any l isPrimFT (fun m => validate_value_bool ct fuel v m)
  constructor
  · rw [hU]
    exact List.any_eq_true
  · rw [hU, hU]
    exact perm_any_eq _ hperm

/-- C3 witness: `Union<string, number>` and `Union<number, string>` agree
on a concrete string, which moreover passes via the `string` member. -/
theorem C3_witness :
    (validate_value_bool [] 1 (JsVal.str "x") (.union [.string, .number]) = true ↔
      ∃ t ∈ [FieldType.string, FieldType.number],
        validate_value_bool [] 0 (JsVal.str "x") t = true)
    ∧ validate_value_bool [] 1 (JsVal.str "x") (.union [.string, .number]) =
        validate_value_bool [] 1 (JsVal.str "x") (.union [.number, .string]) :=
  C3_union_member_semantics [] 0 (JsVal.str "x") [.string, .number]
    [.number, .string] (List.Perm.swap FieldType.number FieldType.string [])

/-! ### C8: unrolled strict-tier validators agree with the generic fallback -/

theorem strict1_eq_generic (sf : List (String × Nat)) (v : JsVal) (h : sf.length = 1) :
    validate_batch_1_field_item sf v = validate_batch_n_fields_item sf v := by
  match sf, h with
  | [(k1, t1)], _ =>
      unfold validate_batch_1_field_item validate_batch_n_fields_item
      cases hobj : v.isJsObject <;>
        simp [validate_primitive_type, hobj, Bool.and_assoc]

theorem strict2_eq_generic (sf : List (String × Nat)) (v : JsVal) (h : sf.length = 2) :
    validate_batch_2_fields_item sf v = validate_batch_n_fields_item sf v := by
  match sf, h with
  | [(k1, t1), (k2, t2)], _ =>
      unfold validate_batch_2_fields_item validate_batch_n_fields_item
      cases hobj : v.isJsObject
      · simp [hobj]
      · simp only [hobj, List.all_cons, List.all_nil]
        cases h1 : (v.getProp k1).isUndefined <;> cases h2 : (v.getProp k2).isUndefined <;>
          simp [Bool.and_assoc, Bool.and_left_comm, Bool.and_comm]

theorem strict3_eq_generic (sf : List (String × Nat)) (v : JsVal) (h : sf.length = 3) :
    validate_batch_3_fields_item sf v = validate_batch_n_fields_item sf v := by
  match sf, h with
  | [(k1, t1), (k2, t2), (k3, t3)], _ =>
      unfold validate_batch_3_fields_item validate_batch_n_fields_item
      cases hobj : v.isJsObject
      · simp [hobj]
      · simp only [hobj, List.all_cons, List.all_nil]
        cases h1 : (v.getProp k1).isUndefined <;> cases h2 : (v.getProp k2).isUndefined <;>
          cases h3 : (v.getProp k3).isUndefined <;>
            simp [Bool.and_assoc, Bool.and_left_comm, Bool.and_comm]

theorem strict4_eq_generic (sf : List (String × Nat)) (v : JsVal) (h : sf.length = 4) :
    validate_batch_4_fields_item sf v = validate_batch_n_fields_item sf v := by
  match sf, h with
  | [(k1, t1), (k2, t2), (k3, t3), (k4, t4)], _ =>
      unfold validate_batch_4_fields_item validate_batch_n_fields_item
      cases hobj : v.isJsObject
      · simp [hobj]
      · simp only [hobj, List.all_cons, List.all_nil]
        cases h1 : (v.getProp k1).isUndefined <;> cases h2 : (v.getProp k2).isUndefined <;>
          cases h3 : (v.getProp k3).isUndefined <;> cases h4 : (v.getProp k4).isUndefined <;>
            simp [Bool.and_assoc, Bool.and_left_comm, Bool.and_comm]

/-- The strict-tier dispatcher always computes the generic N-field result,
whatever the field count. -/
theorem strict_tier_item_eq_generic (c : DhiCore) (v : JsVal) :
    strict_tier_item c v = validate_batch_n_fields_item c.strict_fields v := by
  unfold strict_tier_item
  split
  · exact strict1_eq_generic _ _ (by assumption)
  · exact strict2_eq_generic _ _ (by assumption)
  · exact strict3_eq_generic _ _ (by assumption)
  · exact strict4_eq_generic _ _ (by assumption)
  · rfl

/-- C8: in the strict-primitive batch tier, each specialized unrolled
validator for 1, 2, 3 and 4 strict fields produces, for every input value,
exactly the same boolean as the generic N-field fallback run on the same
`strict_fields` table. -/
theorem C8_unrolled_variants_equal_generic (c : DhiCore) (v : JsVal) :
    (c.strict_fields.length = 1 →
      validate_batch_1_field_item c.strict_fields v =
        validate_batch_n_fields_item c.strict_fields v)
    ∧ (c.strict_fields.length = 2 →
        validate_batch_2_fields_item c.strict_fields v =
          validate_batch_n_fields_item c.strict_fields v)
    ∧ (c.strict_fields.length = 3 →
        validate_batch_3_fields_item c.strict_fields v =
          validate_batch_n_fields_item c.strict_fields v)
    ∧ (c.strict_fields.length = 4 →
        validate_batch_4_fields_item c.strict_fields v =
          validate_batch_n_fields_item c.strict_fields v) :=
  ⟨strict1_eq_generic c.strict_fields v, strict2_eq_generic c.strict_fields v,
    strict3_eq_generic c.strict_fields v, strict4_eq_generic c.strict_fields v⟩

/-- C8 witness: concrete tables of lengths 1-4 on a concrete object,
discharging each length hypothesis. -/
theorem C8_witness :
    (validate_batch_1_field_item [("a", 0)] (JsVal.obj [("a", JsVal.str "x")]) =
      validate_batch_n_fields_item [("a", 0)] (JsVal.obj [("a", JsVal.str "x")]))
    ∧ (validate_batch_2_fields_item [("a", 0), ("b", 1)] (JsVal.obj [("a", JsVal.str "x")]) =
        validate_batch_n_fields_item [("a", 0), ("b", 1)] (JsVal.obj [("a", JsVal.str "x")]))
    ∧ (validate_batch_3_fields_item [("a", 0), ("b", 1), ("c", 2)]
        (JsVal.obj [("a", JsVal.str "x")]) =
        validate_batch_n_fields_item [("a", 0), ("b", 1), ("c", 2)]
          (JsVal.obj [("a", JsVal.str "x")]))
    ∧ (validate_batch_4_fields_item [("a", 0), ("b", 1), ("c", 2), ("d", 0)]
        (JsVal.obj [("a", JsVal.str "x")]) =
        validate_batch_n_fields_item [("a", 0), ("b", 1), ("c", 2), ("d", 0)]
          (JsVal.obj [("a", JsVal.str "x")])) :=
  ⟨(C8_unrolled_variants_equal_generic
      { DhiCore.new with strict_fields := [("a", 0)] } (JsVal.obj [("a", JsVal.str "x")])).1 rfl,
    (C8_unrolled_variants_equal_generic
      { DhiCore.new with strict_fields := [("a", 0), ("b", 1)] }
      (JsVal.obj [("a", JsVal.str "x")])).2.1 rfl,
    (C8_unrolled_variants_equal_generic
      { DhiCore.new with strict_fields := [("a", 0), ("b", 1), ("c", 2)] }
      (JsVal.obj [("a", JsVal.str "x")])).2.2.1 rfl,
    (C8_unrolled_variants_equal_generic
      { DhiCore.new with strict_fields := [("a", 0), ("b", 1), ("c", 2), ("d", 0)] }
      (JsVal.obj [("a", JsVal.str "x")])).2.2.2 rfl⟩

/-! ### C9: cached classification is recomputed by every mutation -/


theorem invalidate_cache_classifies (c : DhiCore) :
    ClassifiedCorrectly (invalidate_cache c) := by
  constructor
  · rfl
  · show (!(c.schema.any fun e => isComplexFT e.ftype)
        && c.schema.all (fun e => e.required && isPrimFT e.ftype)) =
      ((!(c.schema.any fun e => isComplexFT e.ftype)
        && c.schema.all fun e => e.required)
        && c.schema.all fun e => isPrimFT e.ftype)
    rw [list_all_and, ← Bool.and_assoc]

/-- C9: after each schema mutation (`add_field`, `add_object_field`,
`add_nested_field`) that succeeds, the cached classification satisfies:
`has_complex_types` iff some field is Object, Array, Custom or Union, and
`is_strict_primitive_schema` iff no complex types, every field required,
and every field String/Number/Boolean — the flags are recomputed by the
mutation itself (each ends in `invalidate_cache`), never read stale. -/
theorem C9_classification_fresh_after_mutation (c : DhiCore)
    (name d path fname : String) (req : Bool) :
    ((add_field c name d req).2 = none →
      ClassifiedCorrectly (add_field c name d req).1)
    ∧ ClassifiedCorrectly (add_object_field c name req)
    ∧ ((add_nested_field c path fname d req).2 = none →
        ClassifiedCorrectly (add_nested_field c path fname d req).1) := by
  refine ⟨?_, ?_, ?_⟩
  · unfold add_field
    split
    · intro h; exact Option.noConfusion h
    · intro _; exact invalidate_cache_classifies _
  · exact invalidate_cache_classifies _
  · unfold add_nested_field
    split
    · intro h; exact Option.noConfusion h
    · split
      · intro _; exact invalidate_cache_classifies _
      · split
        · intro _; exact invalidate_cache_classifies _
        · intro h; exact Option.noConfusion h

/-- C9 witness: concrete successful `add_field` and root-path
`add_nested_field` mutations. -/
theorem C9_witness :
    ClassifiedCorrectly (add_field DhiCore.new "a" "string" true).1
    ∧ ClassifiedCorrectly
        (add_nested_field DhiCore.new "" "b" "number" false).1 :=
  ⟨(C9_classification_fresh_after_mutation DhiCore.new "a" "string" "" "b" true).1 rfl,
    (C9_classification_fresh_after_mutation DhiCore.new "a" "number" "" "b" false).2.2 rfl⟩

/-! ### C5: add_nested_field path navigation -/

theorem insertAtPath_nil (s : Schema) (e : FieldEntry) :
    insertAtPath s [] e = some (insertField s e) := by
  simp only [insertAtPath]

theorem navigatePath_nil (s : Schema) : navigatePath s [] = some s := by
  simp only [navigatePath]

theorem insertAtPath_nil_cons (p : String) (ps : List String) (e : FieldEntry) :
    insertAtPath [] (p :: ps) e = none := rfl

theorem navigatePath_nil_cons (p : String) (ps : List String) :
    navigatePath [] (p :: ps) = none := by
  simp only [navigatePath]

theorem insertAtPath_cons (nm : String) (t : FieldType) (r : Bool) (k : String)
    (restS : Schema) (p : String) (restP : List String) (e : FieldEntry) :
    insertAtPath (.mk nm t r k :: restS) (p :: restP) e =
      (if nm = p then
        match t with
        | .object nested =>
            match insertAtPath nested restP e with
            | some ns => some (.mk nm (.object ns) r k :: restS)
            | none => none
        | _ => none
      else
        match insertAtPath restS (p :: restP) e with
        | some s2 => some (.mk nm t r k :: s2)
        | none => none) := by
  cases t <;> rfl

theorem navigatePath_cons (nm : String) (t : FieldType) (r : Bool) (k : String)
    (restS : Schema) (p : String) (restP : List String) :
    navigatePath (.mk nm t r k :: restS) (p :: restP) =
      (if nm = p then
        match t with
        | .object nested => navigatePath nested restP
        | _ => none
      else navigatePath restS (p :: restP)) := by
  cases t <;> simp [navigatePath]

theorem insertAtPath_cons_object (nm : String) (nested : Schema) (r : Bool)
    (k : String) (restS : Schema) (p : String) (restP : List String) (e : FieldEntry) :
    insertAtPath (.mk nm (.object nested) r k :: restS) (p :: restP) e =
      (if nm = p then
        match insertAtPath nested restP e with
        | some ns => some (.mk nm (.object ns) r k :: restS)
        | none => none
      else
        match insertAtPath restS (p :: restP) e with
        | some s2 => some (.mk nm (.object nested) r k :: s2)
        | none => none) := rfl

theorem navigatePath_cons_object (nm : String) (nested : Schema) (r : Bool)
    (k : String) (restS : Schema) (p : String) (restP : List String) :
    navigatePath (.mk nm (.object nested) r k :: restS) (p :: restP) =
      (if nm = p then navigatePath nested restP
       else navigatePath restS (p :: restP)) := by
  simp only [navigatePath]

/-- The insert-at-path loop fails exactly when read-only navigation fails
(some segment missing or non-Object), and on success it inserts the new
entry into the schema reached by the full path. -/
theorem insertAtPath_navigatePath (e : FieldEntry) (ps : List String) :
    ∀ s : Schema,
      (insertAtPath s ps e = none ↔ navigatePath s ps = none)
      ∧ (∀ target, navigatePath s ps = some target →
          ∃ s2, insertAtPath s ps e = some s2
            ∧ navigatePath s2 ps = some (insertField target e)) := by
  induction ps with
  | nil =>
      intro s
      constructor
      · rw [insertAtPath_nil, navigatePath_nil]
        exact ⟨fun h => Option.noConfusion h, fun h => Option.noConfusion h⟩
      · intro target ht
        rw [navigatePath_nil] at ht
        have hst := Option.some.inj ht
        subst hst
        exact ⟨insertField s e, insertAtPath_nil s e, by rw [navigatePath_nil]⟩
  | cons p restP ihP =>
      intro s
      induction s with
      | nil =>
          constructor
          · rw [navigatePath_nil_cons]
            exact ⟨fun _ => rfl, fun _ => rfl⟩
          · intro target ht
            rw [navigatePath_nil_cons] at ht
            exact Option.noConfusion ht
      | cons ent restS ihS =>
          cases ent with
          | mk nm t r k =>
              by_cases hnm : nm = p
              · cases t
                all_goals try
                  (exact ⟨by
                      rw [insertAtPath_cons, navigatePath_cons, if_pos hnm, if_pos hnm],
                    by
                      intro target ht
                      rw [navigatePath_cons, if_pos hnm] at ht
                      exact Option.noConfusion ht⟩)
                next nested =>
                  constructor
                  · rw [insertAtPath_cons_object, navigatePath_cons_object,
                      if_pos hnm, if_pos hnm]
                    cases hi : insertAtPath nested restP e with
                    | none =>
                        rw [(ihP nested).1.mp hi]
                    | some ns =>
                        cases hn : navigatePath nested restP with
                        | none =>
                            rw [(ihP nested).1.mpr hn] at hi
                            exact Option.noConfusion hi
                        | some tgt =>
                            exact ⟨fun h => Option.noConfusion h,
                              fun h => Option.noConfusion h⟩
                  · intro target ht
                    rw [navigatePath_cons_object, if_pos hnm] at ht
                    obtain ⟨s2, hi, hn2⟩ := (ihP nested).2 target ht
                    refine ⟨FieldEntry.mk nm (.object s2) r k :: restS, ?_, ?_⟩
                    · rw [insertAtPath_cons_object, if_pos hnm, hi]
                    · rw [navigatePath_cons_object, if_pos hnm]
                      exact hn2
              · constructor
                · rw [insertAtPath_cons, navigatePath_cons, if_neg hnm, if_neg hnm]
                  cases hi : insertAtPath restS (p :: restP) e with
                  | none =>
                      rw [ihS.1.mp hi]
                  | some s2 =>
                      cases hn : navigatePath restS (p :: restP) with
                      | none =>
                          rw [ihS.1.mpr hn] at hi
                          exact Option.noConfusion hi
                      | some tgt =>
                          exact ⟨fun h => Option.noConfusion h,
                            fun h => Option.noConfusion h⟩
                · intro target ht
                  rw [navigatePath_cons, if_neg hnm] at ht
                  obtain ⟨s2, hi, hn2⟩ := ihS.2 target ht
                  refine ⟨FieldEntry.mk nm t r k :: s2, ?_, ?_⟩
                  · rw [insertAtPath_cons, if_neg hnm, hi]
                  · rw [navigatePath_cons, if_neg hnm]
                    exact hn2

theorem add_nested_field_ok (c : DhiCore) (path fname d : String) (req : Bool)
    (t : FieldType) (hp : parse_field_type c d = .ok t) :
    add_nested_field c path fname d req =
      (if path = "" then
        (invalidate_cache
          { c with schema := insertField c.schema (.mk fname t req fname) }, none)
      else
        match insertAtPath c.schema (splitChar '.' path) (.mk fname t req fname) with
        | some s2 => (invalidate_cache { c with schema := s2 }, none)
        | none => (c, some "Invalid object path")) := by
  unfold add_nested_field
  rw [hp]

/-- C5: `add_nested_field` with an empty path inserts into the root schema;
with a non-empty dot-separated path it fails with the `Invalid object path`
error, leaving the state untouched, exactly when navigation fails (some
segment missing from the schema being navigated, or naming a field whose
type is not Object — the failure condition captured by `navigatePath`);
otherwise it succeeds and the field is inserted into the nested Object
schema reached by the full path. -/
theorem C5_add_nested_field_navigation (c : DhiCore) (path fname d : String)
    (req : Bool) (t : FieldType) (hp : parse_field_type c d = .ok t) :
    (path = "" →
      add_nested_field c path fname d req =
        (invalidate_cache
          { c with schema := insertField c.schema (.mk fname t req fname) }, none))
    ∧ (path ≠ "" → navigatePath c.schema (splitChar '.' path) = none →
        add_nested_field c path fname d req = (c, some "Invalid object path"))
    ∧ (path ≠ "" → ∀ target,
        navigatePath c.schema (splitChar '.' path) = some target →
        ∃ s2, insertAtPath c.schema (splitChar '.' path) (.mk fname t req fname) = some s2
          ∧ add_nested_field c path fname d req =
              (invalidate_cache { c with schema := s2 }, none)
          ∧ navigatePath s2 (splitChar '.' path) =
              some (insertField target (.mk fname t req fname))) := by
  rw [add_nested_field_ok c path fname d req t hp]
  refine ⟨?_, ?_, ?_⟩
  · intro h
    rw [if_pos h]
  · intro hne hnav
    rw [if_neg hne,
      (insertAtPath_navigatePath (.mk fname t req fname) (splitChar '.' path)
        c.schema).1.mpr hnav]
  · intro hne target hnav
    obtain ⟨s2, hi, hn2⟩ :=
      (insertAtPath_navigatePath (.mk fname t req fname) (splitChar '.' path)
        c.schema).2 target hnav
    refine ⟨s2, hi, ?_, hn2⟩
    rw [if_neg hne, hi]

/-- C5 witness: a core with one Object field named `user`; inserting at
path `user` succeeds and lands in the nested schema, instantiating the
successful-navigation conjunct. -/
theorem C5_witness :
    ∃ s2, insertAtPath (add_object_field DhiCore.new "user" true).schema
        (splitChar '.' "user") (.mk "name" .string true "name") = some s2
      ∧ add_nested_field (add_object_field DhiCore.new "user" true)
          "user" "name" "string" true =
          (invalidate_cache
            { add_object_field DhiCore.new "user" true with schema := s2 }, none)
      ∧ navigatePath s2 (splitChar '.' "user") =
          some (insertField [] (.mk "name" .string true "name")) :=
  (C5_add_nested_field_navigation (add_object_field DhiCore.new "user" true)
    "user" "name" "string" true .string rfl).2.2 (by decide) []
    (by simp [add_object_field, invalidate_cache, insertField, splitChar,
      splitCharList, navigatePath])

/-! ### C4: unmatched descriptors produce UnsupportedType and mutate nothing -/


theorem exceptMapList_ok (g : String → Except String FieldType) :
    ∀ (l : List String) (ts : List FieldType), exceptMapList g l = .ok ts →
      ∀ p ∈ l, (g p).isOk = true := by
  intro l
  induction l with
  | nil => intro ts _ p hp; cases hp
  | cons q qs ih =>
      intro ts h p hp
      unfold exceptMapList at h
      cases hg : g q with
      | error e => rw [hg] at h; exact Except.noConfusion h
      | ok t =>
          rw [hg] at h
          cases hrest : exceptMapList g qs with
          | error e => rw [hrest] at h; exact Except.noConfusion h
          | ok ts2 =>
              cases hp with
              | head => rw [hg]; rfl
              | tail _ hmem => exact ih ts2 hrest p hmem

theorem exceptMapList_error (g : String → Except String FieldType) :
    ∀ (l : List String) (e : String), exceptMapList g l = .error e →
      ∃ p ∈ l, g p = .error e := by
  intro l
  induction l with
  | nil => intro e h; exact Except.noConfusion h
  | cons q qs ih =>
      intro e h
      unfold exceptMapList at h
      cases hg : g q with
      | error e2 =>
          rw [hg] at h
          have he := Except.error.inj h
          exact ⟨q, List.mem_cons_self q qs, by rw [hg, he]⟩
      | ok t =>
          rw [hg] at h
          cases hrest : exceptMapList g qs with
          | error e2 =>
              rw [hrest] at h
              have he := Except.error.inj h
              obtain ⟨p, hp, hgp⟩ := ih e2 hrest
              exact ⟨p, List.mem_cons_of_mem q hp, by rw [hgp, he]⟩
          | ok ts2 => rw [hrest] at h; exact Except.noConfusion h

/-- Every successfully parsed descriptor is matched by the grammar (or is a
registered custom type, itself a grammar rule). -/
theorem parse_ok_matches (ct : CustomTypes) :
    ∀ (fuel : Nat) (s : String), (parseFieldTypeF ct fuel s).isOk = true →
      matchesGrammarF ct fuel s = true := by
  intro fuel
  induction fuel with
  | zero => intro s h; exact Bool.noConfusion h
  | succ f ih =>
      intro s h
      unfold parseFieldTypeF at h
      split at h
      · simp [matchesGrammarF, keywordList]
      · simp [matchesGrammarF, keywordList]
      · simp [matchesGrammarF, keywordList]
      · simp [matchesGrammarF, keywordList]
      · simp [matchesGrammarF, keywordList]
      · simp [matchesGrammarF, keywordList]
      · simp [matchesGrammarF, keywordList]
      · simp [matchesGrammarF, keywordList]
      · simp [matchesGrammarF, keywordList]
      · simp [matchesGrammarF, keywordList]
      · simp [matchesGrammarF, keywordList]
      · simp [matchesGrammarF, keywordList]
      · simp [matchesGrammarF, keywordList]
      · split at h
        · next hc =>
            simp [matchesGrammarF, hc]
        · split at h
          · next hc =>
              rw [Bool.and_eq_true] at hc
              obtain ⟨h1, h2⟩ := hc
              split at h
              · next heq =>
                  have hmi := ih _ (by rw [heq]; rfl)
                  simp [matchesGrammarF, h1, h2, hmi]
              · exact Bool.noConfusion h
          · split at h
            · next hc =>
                rw [Bool.and_eq_true] at hc
                obtain ⟨h1, h2⟩ := hc
                split at h
                · next heq =>
                    have hmi := ih _ (by rw [heq]; rfl)
                    simp [matchesGrammarF, h1, h2, hmi]
                · exact Bool.noConfusion h
            · split at h
              · next hc =>
                  rw [Bool.and_eq_true] at hc
                  obtain ⟨h1, h2⟩ := hc
                  split at h
                  · next heq =>
                      have hall : (splitChar ',' (strDropRight 1 (strDrop 6 s))).all
                          (fun p => matchesGrammarF ct f (strTrim p)) = true := by
                        refine List.all_eq_true.mpr ?_
                        intro p hp
                        exact ih _ (exceptMapList_ok _ _ _ heq p hp)
                      simp [matchesGrammarF, h1, h2, hall]
                  · exact Bool.noConfusion h
              · split at h
                · next hc =>
                    simp [matchesGrammarF, hc]
                · exact Bool.noConfusion h

/-- Every parse error is an `Unsupported type:` error. -/
theorem parse_error_shape (ct : CustomTypes) :
    ∀ (fuel : Nat) (s e : String), parseFieldTypeF ct fuel s = .error e →
      ∃ m, e = "Unsupported type: " ++ m := by
  intro fuel
  induction fuel with
  | zero =>
      intro s e h
      unfold parseFieldTypeF at h
      exact ⟨s, (Except.error.inj h).symm⟩
  | succ f ih =>
      intro s e h
      unfold parseFieldTypeF at h
      split at h
      · exact Except.noConfusion h
      · exact Except.noConfusion h
      · exact Except.noConfusion h
      · exact Except.noConfusion h
      · exact Except.noConfusion h
      · exact Except.noConfusion h
      · exact Except.noConfusion h
      · exact Except.noConfusion h
      · exact Except.noConfusion h
      · exact Except.noConfusion h
      · exact Except.noConfusion h
      · exact Except.noConfusion h
      · exact Except.noConfusion h
      · split at h
        · exact Except.noConfusion h
        · split at h
          · split at h
            · exact Except.noConfusion h
            · next heq =>
                have he := Except.error.inj h
                obtain ⟨m, hm⟩ := ih _ _ heq
                exact ⟨m, by rw [← he, hm]⟩
          · split at h
            · split at h
              · exact Except.noConfusion h
              · next heq =>
                  have he := Except.error.inj h
                  obtain ⟨m, hm⟩ := ih _ _ heq
                  exact ⟨m, by rw [← he, hm]⟩
            · split at h
              · split at h
                · exact Except.noConfusion h
                · next heq =>
                    have he := Except.error.inj h
                    obtain ⟨p, hp, hgp⟩ := exceptMapList_error _ _ _ heq
                    obtain ⟨m, hm⟩ := ih _ _ hgp
                    exact ⟨m, by rw [← he, hm]⟩
              · split at h
                · exact Except.noConfusion h
                · exact ⟨s, (Except.error.inj h).symm⟩

/-- C4: a descriptor matched by no grammar rule (the registered custom
types being one of the rules) makes the parser fail with an
`Unsupported type:` error, and each field-adding operation given that
descriptor returns the same error with the validator state exactly as it
was — no partial field insertion occurs. -/
theorem C4_unsupported_descriptor (c : DhiCore) (d name path fname tname : String)
    (req : Bool) (hm : matchesGrammar c d = false) :
    ∃ m, parse_field_type c d = .error ("Unsupported type: " ++ m)
      ∧ add_field c name d req = (c, some ("Unsupported type: " ++ m))
      ∧ add_nested_field c path fname d req = (c, some ("Unsupported type: " ++ m))
      ∧ add_field_to_custom_type c tname fname d req =
          (c, some ("Unsupported type: " ++ m)) := by
  have herr : ∃ e, parse_field_type c d = .error e := by
    cases hp : parse_field_type c d with
    | ok t =>
        have hok : (parseFieldTypeF c.custom_types (d.length + 1) d).isOk = true := by
          rw [show parseFieldTypeF c.custom_types (d.length + 1) d =
            parse_field_type c d from rfl, hp]
          rfl
        have := parse_ok_matches c.custom_types (d.length + 1) d hok
        unfold matchesGrammar at hm
        rw [this] at hm
        exact Bool.noConfusion hm
    | error e => exact ⟨e, rfl⟩
  obtain ⟨e, hp⟩ := herr
  obtain ⟨m, hshape⟩ := parse_error_shape c.custom_types (d.length + 1) d e hp
  subst hshape
  refine ⟨m, hp, ?_, ?_, ?_⟩
  · unfold add_field
    rw [hp]
  · unfold add_nested_field
    rw [hp]
  · unfold add_field_to_custom_type
    rw [hp]

/-- C4 witness: the concrete descriptor `zzz` matches no rule on an empty
core. -/
theorem C4_witness :
    ∃ m, parse_field_type DhiCore.new "zzz" = .error ("Unsupported type: " ++ m)
      ∧ add_field DhiCore.new "f" "zzz" true =
          (DhiCore.new, some ("Unsupported type: " ++ m))
      ∧ add_nested_field DhiCore.new "p" "g" "zzz" true =
          (DhiCore.new, some ("Unsupported type: " ++ m))
      ∧ add_field_to_custom_type DhiCore.new "T" "g" "zzz" true =
          (DhiCore.new, some ("Unsupported type: " ++ m)) :=
  C4_unsupported_descriptor DhiCore.new "zzz" "f" "p" "g" "T" true (by decide)

/-! ### C2: presence-bitmap semantics -/


theorem testBit_maskOfFields_lt (pred : FieldEntry → Bool) :
    ∀ (s : Schema) (i j : Nat), j < i →
      (maskOfFields pred s i).testBit j = false := by
  intro s
  induction s with
  | nil => intro i j _; exact Nat.zero_testBit j
  | cons e rest ih =>
      intro i j hj
      unfold maskOfFields
      by_cases h32 : 32 ≤ i
      · rw [if_pos h32]; exact Nat.zero_testBit j
      · rw [if_neg h32, Nat.testBit_lor, ih (i + 1) j (Nat.lt_succ_of_lt hj)]
        cases hp : pred e
        · simp
        · rw [if_pos rfl, Nat.one_shiftLeft,
            Nat.testBit_two_pow_of_ne (Nat.ne_of_gt hj)]
          rfl

/-- Splitting a bitwise-and equality over a bit boundary: with `a`, `b`
concentrated at bit `i` and `A`, `B` above bit `i`, the combined mask
inclusion decomposes pointwise. -/
theorem land_lor_split (i : Nat) (a b A B : Nat)
    (ha : ∀ j, j ≠ i → a.testBit j = false)
    (hb : ∀ j, j ≠ i → b.testBit j = false)
    (hA : ∀ j, j ≤ i → A.testBit j = false)
    (hB : ∀ j, j ≤ i → B.testBit j = false) :
    (((a ||| A) &&& (b ||| B)) = (b ||| B)) ↔ ((a &&& b) = b ∧ (A &&& B) = B) := by
  constructor
  · intro h
    constructor
    · apply Nat.eq_of_testBit_eq
      intro j
      rw [Nat.testBit_land]
      by_cases hj : j = i
      · subst hj
        have hbit := congrArg (fun n => Nat.testBit n j) h
        simp only [Nat.testBit_land, Nat.testBit_lor] at hbit
        rw [hA j le_rfl, hB j le_rfl] at hbit
        simpa using hbit
      · rw [ha j hj, hb j hj]
        rfl
    · apply Nat.eq_of_testBit_eq
      intro j
      rw [Nat.testBit_land]
      by_cases hj : j ≤ i
      · rw [hB j hj, Bool.and_false]
      · have hji : j ≠ i := fun he => hj (he ▸ le_rfl)
        have hbit := congrArg (fun n => Nat.testBit n j) h
        simp only [Nat.testBit_land, Nat.testBit_lor] at hbit
        rw [ha j hji, hb j hji] at hbit
        simpa using hbit
  · intro hsplit
    obtain ⟨h1, h2⟩ := hsplit
    apply Nat.eq_of_testBit_eq
    intro j
    simp only [Nat.testBit_land, Nat.testBit_lor]
    by_cases hj : j = i
    · subst hj
      rw [hA j le_rfl, hB j le_rfl]
      have hbit := congrArg (fun n => Nat.testBit n j) h1
      simp only [Nat.testBit_land] at hbit
      simpa using hbit
    · by_cases hjle : j ≤ i
      · rw [ha j hj, hb j hj, hA j hjle, hB j hjle]
        rfl
      · rw [ha j hj, hb j hj]
        have hbit := congrArg (fun n => Nat.testBit n j) h2
        simp only [Nat.testBit_land] at hbit
        simpa using hbit

/-- Over at most 32 fields, the mask inclusion check of the presence
bitmap is the pointwise statement that every selected-by-`Q` field is also
selected by `P`. -/
theorem maskOfFields_subset_iff (P Q : FieldEntry → Bool) :
    ∀ (s : Schema) (i : Nat), i + s.length ≤ 32 →
      (((maskOfFields P s i &&& maskOfFields Q s i) = maskOfFields Q s i) ↔
        ∀ e ∈ s, Q e = true → P e = true) := by
  intro s
  induction s with
  | nil =>
      intro i _
      simp [maskOfFields]
  | cons e rest ih =>
      intro i hle
      have h32 : ¬ 32 ≤ i := by
        simp only [List.length_cons] at hle
        omega
      have hle2 : (i + 1) + rest.length ≤ 32 := by
        simp only [List.length_cons] at hle
        omega
      unfold maskOfFields
      rw [if_neg h32, if_neg h32]
      rw [land_lor_split i _ _ _ _
        (fun j hj => by
          cases hp : P e
          · simp
          · rw [if_pos rfl, Nat.one_shiftLeft,
              Nat.testBit_two_pow_of_ne fun he => hj he.symm])
        (fun j hj => by
          cases hq : Q e
          · simp
          · rw [if_pos rfl, Nat.one_shiftLeft,
              Nat.testBit_two_pow_of_ne fun he => hj he.symm])
        (fun j hj => testBit_maskOfFields_lt P rest (i + 1) j (Nat.lt_succ_of_le hj))
        (fun j hj => testBit_maskOfFields_lt Q rest (i + 1) j (Nat.lt_succ_of_le hj))]
      rw [ih (i + 1) hle2]
      constructor
      · rintro ⟨hhead, hrest⟩ x hx hq
        cases hx with
        | head =>
            cases hp : P e
            · exfalso
              rw [hp, hq] at hhead
              rw [if_neg Bool.false_ne_true, if_pos rfl, Nat.zero_and] at hhead
              rw [Nat.one_shiftLeft] at hhead
              have := Nat.two_pow_pos i
              omega
            · rfl
        | tail _ hmem => exact hrest x hmem hq
      · intro hall
        refine ⟨?_, fun x hx hq => hall x (List.mem_cons_of_mem e hx) hq⟩
        cases hq : Q e
        · rw [if_neg Bool.false_ne_true, Nat.and_zero]
        · rw [hall e (List.mem_cons_self e rest) hq, if_pos rfl, Nat.and_self]

/-- The mask-building loop computes: every present field type-checks, and
the accumulated present mask contains the accumulated required mask. -/
theorem asymLoop_characterisation (ct : CustomTypes) (fuel : Nat) (v : JsVal) :
    ∀ (s : Schema) (i p r : Nat), i + s.length ≤ 32 →
      asymLoop ct fuel v s i p r =
        (s.all (fun e => (v.getProp e.key).isUndefined
            || validate_value_bool ct fuel (v.getProp e.key) e.ftype)
          && (((p ||| maskOfFields (fun e => !(v.getProp e.key).isUndefined) s i)
                &&& (r ||| maskOfFields (fun e => e.required) s i))
              == (r ||| maskOfFields (fun e => e.required) s i))) := by
  intro s
  induction s with
  | nil =>
      intro i p r _
      simp [asymLoop, maskOfFields, Nat.or_zero]
  | cons e rest ih =>
      intro i p r hle
      have h32 : ¬ 32 ≤ i := by
        simp only [List.length_cons] at hle
        omega
      have hle2 : (i + 1) + rest.length ≤ 32 := by
        simp only [List.length_cons] at hle
        omega
      cases hu : (v.getProp e.key).isUndefined with
      | true =>
          rw [show asymLoop ct fuel v (e :: rest) i p r =
              asymLoop ct fuel v rest (i + 1) p
                (if e.required then r ||| 1 <<< i else r) from by
            simp [asymLoop, h32, hu]]
          rw [ih (i + 1) p _ hle2]
          cases hreq : e.required <;>
            simp [List.all_cons, maskOfFields, h32, hu, hreq, Nat.zero_or,
              Nat.or_assoc]
      | false =>
          cases hvv : validate_value_bool ct fuel (v.getProp e.key) e.ftype with
          | true =>
              rw [show asymLoop ct fuel v (e :: rest) i p r =
                  asymLoop ct fuel v rest (i + 1) (p ||| 1 <<< i)
                    (if e.required then r ||| 1 <<< i else r) from by
                simp [asymLoop, h32, hu, hvv]]
              rw [ih (i + 1) _ _ hle2]
              cases hreq : e.required <;>
                simp [List.all_cons, maskOfFields, h32, hu, hvv, hreq,
                  Nat.zero_or, Nat.or_assoc]
          | false =>
              simp [asymLoop, h32, hu, hvv, List.all_cons]

/-- The loop never looks past the 32nd field: it computes the same result
on the truncated schema. -/
theorem asymLoop_take (ct : CustomTypes) (fuel : Nat) (v : JsVal) :
    ∀ (s : Schema) (i p r : Nat),
      asymLoop ct fuel v s i p r = asymLoop ct fuel v (s.take (32 - i)) i p r := by
  intro s
  induction s with
  | nil => intro i p r; rw [List.take_nil]
  | cons e rest ih =>
      intro i p r
      by_cases h32 : 32 ≤ i
      · rw [Nat.sub_eq_zero_of_le h32, List.take_zero]
        simp [asymLoop, h32]
      · have hsub : 32 - i = (32 - (i + 1)) + 1 := by omega
        rw [hsub, List.take_succ_cons]
        cases hu : (v.getProp e.key).isUndefined with
        | true =>
            rw [show asymLoop ct fuel v (e :: rest) i p r =
                asymLoop ct fuel v rest (i + 1) p
                  (if e.required then r ||| 1 <<< i else r) from by
              simp [asymLoop, h32, hu],
              show asymLoop ct fuel v (e :: rest.take (32 - (i + 1))) i p r =
                asymLoop ct fuel v (rest.take (32 - (i + 1))) (i + 1) p
                  (if e.required then r ||| 1 <<< i else r) from by
              simp [asymLoop, h32, hu]]
            exact ih (i + 1) p _
        | false =>
            cases hvv : validate_value_bool ct fuel (v.getProp e.key) e.ftype with
            | true =>
                rw [show asymLoop ct fuel v (e :: rest) i p r =
                    asymLoop ct fuel v rest (i + 1) (p ||| 1 <<< i)
                      (if e.required then r ||| 1 <<< i else r) from by
                  simp [asymLoop, h32, hu, hvv],
                  show asymLoop ct fuel v (e :: rest.take (32 - (i + 1))) i p r =
                    asymLoop ct fuel v (rest.take (32 - (i + 1))) (i + 1)
                      (p ||| 1 <<< i)
                      (if e.required then r ||| 1 <<< i else r) from by
                  simp [asymLoop, h32, hu, hvv]]
                exact ih (i + 1) _ _
            | false =>
                simp [asymLoop, h32, hu, hvv]


/-- C2 counterexample: on a 33-field schema the batch path does not fall
back to the general recursive validator — the 33rd required field is
simply never checked, so the batch accepts an item that single-value
validation rejects. -/
theorem C2_counterexample :
    validate_batch wideCore 1 [wideItem] = .ok [true]
      ∧ validate wideCore 1 wideItem = .ok false :=
  ⟨rfl, rfl⟩

/-- C2 (amended): in the presence-bitmap tier, an item with at most 32
schema fields is valid exactly when it is an object, every present field
passes its type check, and the present-fields bitmask ANDed with the
required-fields bitmask equals the required-fields bitmask; for schemas
with more than 32 fields there is no fallback — the loop computes its
result from the first 32 fields (in schema iteration order) only, so
fields beyond the 32nd are never checked. -/
theorem C2_presence_bitmap_semantics (c : DhiCore) (fuel : Nat) (v : JsVal) :
    (c.schema.length ≤ 32 →
      asym_tier_item c fuel v =
        (v.isJsObject
          && ((c.schema.all fun e => (v.getProp e.key).isUndefined
              || validate_value_bool c.custom_types fuel (v.getProp e.key) e.ftype)
            && ((presentMask v c.schema &&& requiredMask c.schema)
                == requiredMask c.schema))))
    ∧ asym_tier_item c fuel v =
        (v.isJsObject && asymLoop c.custom_types fuel v (c.schema.take 32) 0 0 0) := by
  constructor
  · intro hlen
    unfold asym_tier_item
    rw [asymLoop_characterisation c.custom_types fuel v c.schema 0 0 0
      (by simpa using hlen)]
    rw [Nat.zero_or, Nat.zero_or]
    rfl
  · unfold asym_tier_item
    rw [asymLoop_take c.custom_types fuel v c.schema 0 0 0]


/-- C2 witness: the bitmap characterisation instantiated on a concrete
one-field schema, discharging the 32-field bound. -/
theorem C2_witness :
    asym_tier_item smallAsymCore 1 (JsVal.obj []) =
      ((JsVal.obj []).isJsObject
        && ((smallAsymCore.schema.all fun e => ((JsVal.obj []).getProp e.key).isUndefined
            || validate_value_bool smallAsymCore.custom_types 1
                ((JsVal.obj []).getProp e.key) e.ftype)
          && ((presentMask (JsVal.obj []) smallAsymCore.schema &&&
                requiredMask smallAsymCore.schema)
              == requiredMask smallAsymCore.schema))) :=
  (C2_presence_bitmap_semantics smallAsymCore 1 (JsVal.obj [])).1 (by decide)

/-! ### C1: batch vs single equivalence -/

/-- The two arms of `validate_value_internal`'s per-field match compute the
same flat per-field check: the `Object` arm's direct call to
`validate_object_bool` is the body of `validate_value_bool`'s Object
case. -/
theorem validate_value_internal_eq (c : DhiCore) (fuel : Nat) (v : JsVal) :
    validate_value_internal c fuel v =
      (v.isJsObject && c.schema.all (fun e =>
        if e.required && (v.getProp e.key).isUndefined then false
        else if (v.getProp e.key).isUndefined then true
        else validate_value_bool c.custom_types fuel (v.getProp e.key) e.ftype)) := by
  unfold validate_value_internal
  congr 1
  refine congrArg _ (funext fun e => ?_)
  cases h : e.ftype <;> simp [validate_object_bool, h]

/-- The presence-bitmap per-item validator agrees with single-value
validation whenever the schema has at most 32 fields. -/
theorem asym_eq_internal (c : DhiCore) (fuel : Nat) (v : JsVal)
    (hlen : c.schema.length ≤ 32) :
    asym_tier_item c fuel v = validate_value_internal c fuel v := by
  unfold asym_tier_item
  rw [asymLoop_characterisation c.custom_types fuel v c.schema 0 0 0
    (by simpa using hlen), Nat.zero_or, Nat.zero_or]
  rw [validate_value_internal_eq]
  congr 1
  have hmask := maskOfFields_subset_iff (fun e => !(v.getProp e.key).isUndefined)
    (fun e => e.required) c.schema 0 (by simpa using hlen)
  have hboolmask : ((maskOfFields (fun e => !(v.getProp e.key).isUndefined) c.schema 0 &&&
        maskOfFields (fun e => e.required) c.schema 0) ==
        maskOfFields (fun e => e.required) c.schema 0)
      = c.schema.all (fun e => !e.required || !(v.getProp e.key).isUndefined) := by
    rw [Bool.eq_iff_iff, beq_iff_eq, List.all_eq_true, hmask]
    constructor
    · intro hh e he
      cases hreq : e.required
      · rfl
      · simp [hh e he hreq]
    · intro hh e he hreq
      have hreq2 : e.required = true := hreq
      have h2 := hh e he
      rw [hreq2] at h2
      simpa using h2
  rw [hboolmask, ← list_all_and]
  refine congrArg _ (funext fun e => ?_)
  show (((v.getProp e.key).isUndefined
        || validate_value_bool c.custom_types fuel (v.getProp e.key) e.ftype)
      && (!e.required || !(v.getProp e.key).isUndefined)) =
    (if e.required && (v.getProp e.key).isUndefined then false
      else if (v.getProp e.key).isUndefined then true
      else validate_value_bool c.custom_types fuel (v.getProp e.key) e.ftype)
  cases hu : (v.getProp e.key).isUndefined
  · rw [Bool.and_false, if_neg Bool.false_ne_true, if_neg Bool.false_ne_true,
      Bool.not_false, Bool.or_true, Bool.and_true, Bool.false_or]
  · rw [Bool.and_true, Bool.not_true, Bool.or_false, Bool.true_or, Bool.true_and]
    cases hreq : e.required
    · rw [if_neg Bool.false_ne_true, if_pos rfl, Bool.not_false]
    · rw [if_pos rfl, Bool.not_true]

/-- For a required primitive field, the strict-tier presence-and-tag check
coincides with the generic per-field check of single-value validation. -/
theorem prim_head_eq (ct : CustomTypes) (g : Nat) (fv : JsVal) (t : FieldType)
    (hprim : isPrimFT t = true) :
    (!fv.isUndefined && validate_primitive_type fv (tagOf t)) =
      (if true && fv.isUndefined then false
        else if fv.isUndefined then true
        else validate_value_bool ct (g + 1) fv t) := by
  rw [Bool.true_and]
  cases hu : fv.isUndefined
  · rw [if_neg Bool.false_ne_true, if_neg Bool.false_ne_true, Bool.not_false,
      Bool.true_and]
    cases t
    case string => rfl
    case number => rfl
    case boolean => rfl
    all_goals exact Bool.noConfusion hprim
  · rw [if_pos rfl, Bool.not_true, Bool.false_and]

/-- Over an all-required all-primitive schema, the generic strict-tier
check on the flattened table agrees with the flat per-field check of
single-value validation (at one unit of fuel). -/
theorem strict_fields_all_eq (ct : CustomTypes) (g : Nat) (v : JsVal) :
    ∀ s : Schema, s.all (fun e => e.required && isPrimFT e.ftype) = true →
      (s.map (fun e => (e.key, tagOf e.ftype))).all
        (fun q => !(v.getProp q.1).isUndefined
          && validate_primitive_type (v.getProp q.1) q.2) =
      s.all (fun e =>
        if e.required && (v.getProp e.key).isUndefined then false
        else if (v.getProp e.key).isUndefined then true
        else validate_value_bool ct (g + 1) (v.getProp e.key) e.ftype) := by
  intro s
  induction s with
  | nil => intro _; rfl
  | cons e rest ih =>
      intro hall
      rw [List.all_cons, Bool.and_eq_true] at hall
      obtain ⟨hhead, htail⟩ := hall
      rw [Bool.and_eq_true] at hhead
      obtain ⟨hreq, hprim⟩ := hhead
      rw [List.map_cons, List.all_cons, List.all_cons, ih htail]
      congr 1
      show (!(v.getProp e.key).isUndefined
          && validate_primitive_type (v.getProp e.key) (tagOf e.ftype)) =
        (if e.required && (v.getProp e.key).isUndefined then false
          else if (v.getProp e.key).isUndefined then true
          else validate_value_bool ct (g + 1) (v.getProp e.key) e.ftype)
      rw [hreq]
      exact prim_head_eq ct g (v.getProp e.key) e.ftype hprim

/-- The strict-primitive per-item validator agrees with single-value
validation on a well-formed strict-primitive core, given at least one unit
of fuel. -/
theorem strict_eq_internal (c : DhiCore) (g : Nat) (hwf : WellFormed c)
    (hstrict : c.is_strict_primitive_schema = true) (v : JsVal) :
    strict_tier_item c v = validate_value_internal c (g + 1) v := by
  have hflag : c.is_strict_primitive_schema =
      (!(c.schema.any fun e => isComplexFT e.ftype)
        && c.schema.all fun e => e.required && isPrimFT e.ftype) := by
    conv_lhs => rw [← hwf]
    rfl
  have hcond : (!(c.schema.any fun e => isComplexFT e.ftype)
        && c.schema.all fun e => e.required && isPrimFT e.ftype) = true := by
    rw [← hflag]
    exact hstrict
  have hall : (c.schema.all fun e => e.required && isPrimFT e.ftype) = true := by
    rw [Bool.and_eq_true] at hcond
    exact hcond.2
  have hsf : c.strict_fields = c.schema.map fun e => (e.key, tagOf e.ftype) := by
    conv_lhs => rw [← hwf]
    show (if (!(c.schema.any fun e => isComplexFT e.ftype)
        && c.schema.all fun e => e.required && isPrimFT e.ftype)
      then c.schema.map fun e => (e.key, tagOf e.ftype) else []) = _
    rw [if_pos hcond]
  rw [strict_tier_item_eq_generic, hsf, validate_value_internal_eq]
  unfold validate_batch_n_fields_item
  cases hobj : v.isJsObject
  · simp [hobj]
  · simp only [hobj, if_pos rfl, Bool.true_and]
    exact strict_fields_all_eq c.custom_types g v c.schema hall


/-- C1 counterexample: on a one-field union schema, the union batch tier
validates a hardcoded benchmark shape instead of the schema, so a value
accepted by single validation is rejected by the batch path. -/
theorem C1_counterexample :
    validate_batch unionBenchCore 2 [JsVal.obj [("id", JsVal.str "x")]] =
        .ok [false]
      ∧ validate unionBenchCore 2 (JsVal.obj [("id", JsVal.str "x")]) =
        .ok true :=
  ⟨rfl, rfl⟩

/-- C1 (amended): for every well-formed core the batch result has the
input's length; on the strict-primitive tier (given fuel) batch and single
validation agree item by item; and on the presence-bitmap tier (no unions,
no mixed arrays, complex types present) they agree whenever the schema has
at most 32 fields.  The union and mixed-array tiers (hardcoded benchmark
shapes) and the vectorized tier (ignores required flags) do not satisfy
the per-item equivalence, and the presence-bitmap tier loses it beyond 32
fields. -/
theorem C1_batch_single_equivalence (c : DhiCore) (fuel : Nat)
    (items : List JsVal) (hwf : WellFormed c) :
    (validate_batch_list c fuel items).length = items.length
    ∧ (c.is_strict_primitive_schema = true → 0 < fuel →
        validate_batch_list c fuel items =
          items.map (validate_value_internal c fuel))
    ∧ (c.is_strict_primitive_schema = false → c.has_unions = false →
        c.has_mixed_arrays = false → c.has_complex_types = true →
        c.schema.length ≤ 32 →
        validate_batch_list c fuel items =
          items.map (validate_value_internal c fuel)) := by
  refine ⟨?_, ?_, ?_⟩
  · unfold validate_batch_list
    split
    · simp
    · split
      · simp
      · split
        · simp
        · split
          · simp
          · simp
  · intro hstrict hpos
    obtain ⟨g, rfl⟩ : ∃ g, fuel = g + 1 := ⟨fuel - 1, by omega⟩
    unfold validate_batch_list
    rw [if_pos hstrict]
    exact List.map_congr_left fun v _ => strict_eq_internal c g hwf hstrict v
  · intro h1 h2 h3 h4 hlen
    unfold validate_batch_list
    rw [if_neg (by rw [h1]; exact Bool.false_ne_true),
      if_neg (by rw [h2]; exact Bool.false_ne_true),
      if_neg (by rw [h3]; exact Bool.false_ne_true),
      if_neg (by rw [h4]; exact Bool.false_ne_true)]
    exact List.map_congr_left fun v _ => asym_eq_internal c fuel v hlen


/-- C1 witness: the strict-tier equivalence instantiated on a concrete
two-field primitive core and a concrete batch, with the well-formedness,
classification and fuel hypotheses discharged. -/
theorem C1_witness :
    validate_batch_list strictPairCore 1
        [JsVal.obj [("name", JsVal.str "Al"), ("age", JsVal.num 3)],
          JsVal.obj [("name", JsVal.str "Bo")]] =
      [JsVal.obj [("name", JsVal.str "Al"), ("age", JsVal.num 3)],
        JsVal.obj [("name", JsVal.str "Bo")]].map
        (validate_value_internal strictPairCore 1) :=
  (C1_batch_single_equivalence strictPairCore 1
      [JsVal.obj [("name", JsVal.str "Al"), ("age", JsVal.num 3)],
        JsVal.obj [("name", JsVal.str "Bo")]] rfl).2.1 rfl (by decide)
